import Mathlib

set_option maxHeartbeats 1000000

/-!
Verification of the glasswall python wrapper's archive manager
(`src/glasswall/libraries/archive_manager/archive_manager.py`) and the helpers
it uses from `src/glasswall/common/gw_utils.py`, against the natural-language
specification of the repository.

Modelling conventions:
* byte strings are `List Nat`, python strings are `List Char`;
* filesystem paths are flat strings (`List Char`); the host path separator is
  an explicit environment component, absolute paths are taken as canonical
  (so `os.path.abspath` / `os.path.normpath` are the identity on them);
* the native library is a test double: a pure function from entry point,
  input bytes and policy text to a status code and two output buffers;
* side effects (argtype declarations, chdir, native calls, release calls and
  file writes) are recorded in an event trace; exceptions are `Except`.
-/

namespace Glasswall

abbrev Str := List Char
abbrev Bytes := List Nat
abbrev Path := List Char

/-! ## XML model

`gw_utils.validate_xml` parses the policy with `lxml.etree`, re-indents the
tree with `etree.indent(tree, space=4*" ")` and re-serialises it with
`etree.tostring(tree, encoding="utf-8", xml_declaration=True,
pretty_print=True)`.  We model the fragment of XML that policy documents use:
elements with a tag, optional text, children, and an optional tail (lxml
stores the text that follows an element's end tag in `.tail`); no attributes,
entities, comments or processing instructions, and the canonical single-quoted
utf-8 declaration. -/

inductive Xml where
  | elem (tag : Str) (text : Option Str) (children : List Xml) (tail : Option Str)

def Xml.tagOf : Xml → Str
  | .elem tg _ _ _ => tg

def Xml.textOf : Xml → Option Str
  | .elem _ t _ _ => t

def Xml.childrenOf : Xml → List Xml
  | .elem _ _ ch _ => ch

def Xml.tailOf : Xml → Option Str
  | .elem _ _ _ tl => tl

def Xml.setTail : Xml → Option Str → Xml
  | .elem tg t ch _, tl => .elem tg t ch tl

/-- whitespace as recognised by `str.strip()` on the characters appearing
in XML indentation -/
def isWs (c : Char) : Bool := c = ' ' || c = '\t' || c = '\n' || c = '\r'

/-- characters allowed in a modelled tag name -/
def isTagChar (c : Char) : Bool := c.isAlphanum

mutual

/-- serialisation of an element, mirroring `lxml.etree.tostring` on the
modelled fragment: an element with no text and no children is written
self-closing; otherwise open tag, text, children each followed by their tail,
close tag.  An element's own tail is written by its parent. -/
def printElem : Xml → Str
  | .elem tag text children _ =>
    match text, children with
    | none, [] => '<' :: (tag ++ ['/', '>'])
    | _, _ =>
      '<' :: (tag ++ '>' :: ((text.getD []) ++ printItems children
        ++ ('<' :: '/' :: (tag ++ ['>']))))

def printItems : List Xml → Str
  | [] => []
  | c :: cs => printElem c ++ (Xml.tailOf c).getD [] ++ printItems cs

end

/-- `" " * 4`, the indent unit used by `validate_xml` -/
def indentSpace : Str := [' ', ' ', ' ', ' ']

/-- the canonical indentation at a nesting level: a newline then
`level` copies of the indent unit -/
def indentStr (level : Nat) : Str := '\n' :: (List.replicate level indentSpace).flatten

/-- `not x or not x.strip()` for an optional text: true for `None`, the empty
string and whitespace-only strings -/
def wsOnly : Option Str → Bool
  | none => true
  | some s => s.all isWs

def setTextIfWs (t : Option Str) (ind : Str) : Option Str :=
  if wsOnly t then some ind else t

def Xml.setTailIfWs : Xml → Str → Xml
  | .elem tg t ch tl, ind => .elem tg t ch (setTextIfWs tl ind)

mutual

/-- `lxml.etree.indent(tree, space=4*" ")`: an element without children is
left untouched; an element with children has a whitespace-only (or missing)
text replaced by the indentation of the next level, and each child's
whitespace-only (or missing) tail replaced by the indentation of the next
level — the last child's by the indentation of the current level.  (In the
library source the last child's tail is first set to the child indentation
inside the loop and then dedented after it; the net effect on the last child
is the level indentation exactly when the original tail was missing or
whitespace-only, which is what `indentKids` computes directly.  Recursing
into a childless element is a no-op, so `indentKids` recurses uniformly.) -/
def indentElem (level : Nat) : Xml → Xml
  | .elem tag text children tail =>
    match children with
    | [] => .elem tag text [] tail
    | c :: cs =>
      .elem tag (setTextIfWs text (indentStr (level + 1)))
        (indentKids level (c :: cs)) tail

def indentKids (level : Nat) : List Xml → List Xml
  | [] => []
  | c :: cs =>
    (indentElem (level + 1) c).setTailIfWs
      (indentStr (if cs.isEmpty then level else level + 1)) :: indentKids level cs

end

/-- empty strings become `None` (lxml never stores empty text or tail) -/
def strOpt (s : Str) : Option Str := if s.isEmpty then none else some s

/-- scan character data up to the next markup: stops at `<`, fails on a bare
`&` (the modelled fragment has no entity references) -/
def scanText : Str → Option (Str × Str)
  | [] => some ([], [])
  | c :: cs =>
    if c = '<' then some ([], c :: cs)
    else if c = '&' then none
    else
      match scanText cs with
      | none => none
      | some (t, r) => some (c :: t, r)

/-- recognise the closing tag `</tag>` of the enclosing element -/
def parseClose (tag : Str) (cs : Str) : Option (List Xml × Str) :=
  match cs with
  | '<' :: '/' :: cs1 =>
    if List.isPrefixOf tag cs1 then
      match cs1.drop tag.length with
      | '>' :: rest => some ([], rest)
      | _ => none
    else none
  | _ => none

mutual

/-- recursive-descent parsing of the modelled XML fragment, with a fuel bound
on the element nesting: an element is `<tag/>` or
`<tag>text? (child tail?)* </tag>`; parsed elements carry tail `none`, tails
are attached by the enclosing sequence parser. -/
def parseElem : Nat → Str → Option (Xml × Str)
  | 0, _ => none
  | fuel + 1, cs =>
    match cs with
    | '<' :: cs1 =>
      let tag := cs1.takeWhile isTagChar
      let cs2 := cs1.dropWhile isTagChar
      if tag.isEmpty then none
      else
        match cs2 with
        | '/' :: '>' :: rest => some (.elem tag none [] none, rest)
        | '>' :: rest =>
          match scanText rest with
          | none => none
          | some (txt, cs3) =>
            match parseItems fuel tag cs3 with
            | none => none
            | some (children, rest2) => some (.elem tag (strOpt txt) children none, rest2)
        | _ => none
    | _ => none

def parseItems : Nat → Str → Str → Option (List Xml × Str)
  | 0, tag, cs => parseClose tag cs
  | fuel + 1, tag, cs =>
    match parseClose tag cs with
    | some r => some r
    | none =>
      match parseElem fuel cs with
      | none => none
      | some (child, cs1) =>
        match scanText cs1 with
        | none => none
        | some (tl, cs2) =>
          match parseItems fuel tag cs2 with
          | none => none
          | some (siblings, rest) => some (child.setTail (strOpt tl) :: siblings, rest)

end

/-- the single-quote character, kept out of string literals -/
def sq : Char := Char.ofNat 39

/-- the declaration emitted by `etree.tostring(..., encoding="utf-8",
xml_declaration=True)` followed by the newline separating it from the root -/
def xmlDecl : Str :=
  "<?xml version=".data ++ sq :: "1.0".data ++ sq :: " encoding=".data
    ++ sq :: "utf-8".data ++ sq :: "?>\n".data

def stripDecl (cs : Str) : Str :=
  if List.isPrefixOf xmlDecl cs then cs.drop xmlDecl.length else cs

/-- parse a document: an optional canonical declaration, optional leading
whitespace, the root element, and trailing whitespace -/
def parseDoc (cs : Str) : Option Xml :=
  let body := (stripDecl cs).dropWhile isWs
  match parseElem body.length body with
  | some (t, rest) => if rest.all isWs then some t else none
  | none => none

/-- serialise a document the way `validate_xml` does: declaration, root
element, and the final newline `pretty_print` emits -/
def xml_tostring (t : Xml) : Str := xmlDecl ++ printElem t ++ ['\n']

/-- the policy normalisation pipeline of `validate_xml` on an in-memory
document: parse, re-indent with four spaces, re-serialise -/
def normalize_xml_string (s : Str) : Option Str :=
  (parseDoc s).map (fun t => xml_tostring (indentElem 0 t))

/-- a character that is plain character data in the modelled fragment -/
def isDataChar (c : Char) : Bool := !(c = '<') && !(c = '&')

/-- an optional text or tail as lxml stores it: never the empty string, and
plain character data only -/
def goodOpt : Option Str → Bool
  | none => true
  | some s => !s.isEmpty && s.all isDataChar

mutual

/-- the trees whose serialisation the modelled parser inverts: nonempty
alphanumeric tags, texts and tails that are nonempty plain character data -/
def wf : Xml → Bool
  | .elem tag text children tail =>
    !tag.isEmpty && tag.all isTagChar && goodOpt text && goodOpt tail && wfList children

def wfList : List Xml → Bool
  | [] => true
  | c :: cs => wf c && wfList cs

end

mutual

/-- fuel sufficient for `parseElem` on the serialisation of an element -/
def boundE : Xml → Nat
  | .elem _ _ ch _ => 1 + boundI ch

/-- fuel sufficient for `parseItems` on the serialisation of a sequence -/
def boundI : List Xml → Nat
  | [] => 0
  | c :: cs => 1 + max (boundE c) (boundI cs)

end

/-! ## Environment, errors and events -/

/-- the python exceptions the modelled code can raise.  `engineError k c`
models `errors.error_codes[c](c)` where `k` identifies the error class, and
`unknownErrorCode c` models `errors.UnknownErrorCode(c)`. -/
inductive PyErr where
  | typeError
  | fileNotFoundError (p : Path)
  | valueError
  | unboundLocalError
  | notADirectoryError (p : Path)
  | engineError (kind : Nat) (code : Int)
  | unknownErrorCode (code : Int)
deriving DecidableEq, Repr

/-- the two native entry points the archive manager invokes -/
inductive EntryPoint where
  | GwFileAnalysisArchive
  | GwFileProtectAndReportArchive
deriving DecidableEq, Repr

/-- what one native call produces: the integer status code and the two
engine-allocated output buffers, each reported as a pointer (to contents, or
NULL) plus a length written through the out-parameters -/
structure EngineResult where
  status : Int
  file_buffer : Option Bytes
  file_length : Nat
  report_buffer : Option Bytes
  report_length : Nat

/-- test double for the loaded native library: a pure function of the entry
point invoked, the input buffer contents and the policy C-string -/
structure Engine where
  call : EntryPoint → Bytes → Str → EngineResult

/-- the ambient state the operations read: filesystem, current working
directory, library path, the native test double, and the status tables.

The success and error code tables live in
`glasswall.libraries.archive_manager.successes` / `.errors`, which are not
among the sources under verification; modelled from the spec: a set of codes
considered successful and a mapping of known failure codes to specific error
kinds, kept abstract as environment components. -/
structure Env where
  fs : List (Path × Bytes)
  dirs : List Path
  sep : Char
  cwd : Path
  library_path : Path
  engine : Engine
  success_codes : List Int
  error_codes : List (Int × Nat)

/-- observable side effects, in program order -/
inductive Event where
  | declare_argtypes (ep : EntryPoint)
  | chdir (d : Path)
  | native_call (ep : EntryPoint) (input : Bytes) (policy : Str)
  | release_call
  | write_file (p : Path) (content : Bytes)
deriving DecidableEq, Repr

/-- `os.path.isfile` against the modelled filesystem -/
def isfile (env : Env) (p : Path) : Bool := (env.fs.lookup p).isSome

/-- `open(p, "rb").read()` for a path known to exist -/
def readFile (env : Env) (p : Path) : Bytes := (env.fs.lookup p).getD []

/-- `os.path.dirname` on a flat path with the given separator -/
def dirname (sep : Char) (p : Path) : Path :=
  ((p.reverse.dropWhile (fun c => c ≠ sep)).drop 1).reverse

/-- decoding engine/file bytes as text (the modelled documents are ascii) -/
def decodeBytes (b : Bytes) : Str := b.map Char.ofNat

/-- `str.encode()` -/
def encodeStr (s : Str) : Bytes := s.map Char.toNat

/-! ## gw_utils helpers used by the operations -/

/-- `gw_utils.buffer_to_bytes`: allocate `buffer_length` bytes and `memmove`
them from the address in `buffer`; with length zero nothing is copied (also
from a NULL pointer) and the result is the empty byte string -/
def buffer_to_bytes (buffer : Option Bytes) (buffer_length : Nat) : Bytes :=
  (buffer.getD []).take buffer_length

/-- the structured policy inputs `analyse_archive` / `protect_archive` and
`validate_xml` accept; `unsupported` stands for a value of any other type -/
inductive PolicyInput where
  | nonePolicy
  | str (s : Str)
  | bytes (b : Bytes)
  | byteArray (b : Bytes)
  | bytesStream (b : Bytes)
  | policyObj (text : Str)
  | unsupported
deriving DecidableEq, Repr

/-- Modelled from the spec: the default-policy collaborator
(`glasswall.content_management.policies.ArchiveManager(default="sanitise",
default_archive_manager="process")`, not among the sources under
verification) supplies a structured policy object; only its textual
representation matters here, and the spec requires it to be well-formed
XML ingestible by the normaliser. -/
def default_policy_text : Str := "<config/>".data

/-- `gw_utils.validate_xml`: obtain an element tree from a file path, an xml
string, bytes, a bytearray, an io.BytesIO stream, or a policy object's
`.text`; any parse failure becomes `ValueError`, any other input type
`TypeError`; on success the tree is re-indented with four spaces and
re-serialised with the utf-8 xml declaration -/
def validate_xml (env : Env) (xml : PolicyInput) : Except PyErr Str :=
  match xml with
  | .str s =>
    let source := if isfile env s then decodeBytes (readFile env s) else s
    match normalize_xml_string source with
    | none => .error .valueError
    | some x => .ok x
  | .bytes b | .byteArray b | .bytesStream b =>
    match normalize_xml_string (decodeBytes b) with
    | none => .error .valueError
    | some x => .ok x
  | .policyObj text =>
    match normalize_xml_string text with
    | none => .error .valueError
    | some x => .ok x
  | .nonePolicy => .error .typeError
  | .unsupported => .error .typeError

/-! ## The archive operations -/

/-- the `input_file` argument: a path, raw bytes, a bytearray, an io.BytesIO
stream, or a value of any other type -/
inductive InputFile where
  | path (p : Path)
  | bytes (b : Bytes)
  | byteArray (b : Bytes)
  | bytesStream (b : Bytes)
  | unsupported
deriving DecidableEq, Repr

/-- the attribute bag `glasswall.GwReturnObj` with the attributes these
operations set -/
structure GwReturnObj where
  status : Int
  output_file : Bytes
  output_report : Bytes
deriving DecidableEq, Repr

/-- lines 97-102 of both operations: a str policy that is a path to an
existing file is read as raw bytes; a missing policy is replaced by the
default policy object; everything else is passed to `validate_xml` as is -/
def policy_source (env : Env) (content_management_policy : PolicyInput) : PolicyInput :=
  match content_management_policy with
  | .str s => if isfile env s then .bytes (readFile env s) else .str s
  | .nonePolicy => .policyObj default_policy_text
  | p => p

/-- `errors.error_codes.get(status, errors.UnknownErrorCode)(status)` -/
def engine_error (env : Env) (code : Int) : PyErr :=
  match env.error_codes.lookup code with
  | some kind => .engineError kind code
  | none => .unknownErrorCode code

/-- the write section of the operations: `if content: if isinstance(path,
str): os.makedirs(...); open(path, "wb").write(content)` -/
def opWrites (outPath : Option Path) (content : Bytes) : List Event :=
  match outPath, content with
  | some p, _ :: _ => [.write_file p content]
  | _, _ => []

/-- the shared body of `ArchiveManager.analyse_archive` and
`ArchiveManager.protect_archive` (the two are line-for-line identical except
for the native entry point invoked, and both declare argtypes on
`GwFileAnalysisArchive`, which is why the declared and the invoked entry
points are separate parameters):

1. validate argument types, `TypeError` otherwise;
2. convert the input to bytes: a str path must exist (`FileNotFoundError`)
   and is read; bytearray and io.BytesIO go through `utils.as_bytes`; a bytes
   value matches no branch, so the local `input_file_bytes` stays unassigned
   (modelled as `none`);
3. a str policy that is a path to an existing file is read as raw bytes, a
   missing policy is replaced by the default policy object, then
   `utils.validate_xml` normalises it (`ValueError` on malformed XML);
4. declare the argtypes of the `declared` entry point;
5. initialise the ctypes buffers — `bytearray(input_file_bytes)` raises
   `UnboundLocalError` when step 2 left the local unassigned;
6. under `utils.CwdHandler(self.library_path)`, invoke the `invoked` entry
   point;
7. when the status is not a success code and `raise_unsupported` is set,
   raise the mapped error class (or `UnknownErrorCode`);
8. copy both output buffers out with `utils.buffer_to_bytes`, write each
   non-empty output to its path when one was supplied, and return the
   result object. -/
def archive_operation_body (declared invoked : EntryPoint) (env : Env)
    (input_file : InputFile) (output_file output_report : Option Path)
    (content_management_policy : PolicyInput) (raise_unsupported : Bool) :
    Except PyErr GwReturnObj × List Event :=
  if input_file = InputFile.unsupported then (.error .typeError, [])
  else if content_management_policy = PolicyInput.unsupported then (.error .typeError, [])
  else
    let input_bytes : Except PyErr (Option Bytes) :=
      match input_file with
      | .path p =>
        match env.fs.lookup p with
        | none => .error (.fileNotFoundError p)
        | some b => .ok (some b)
      | .byteArray b => .ok (some b)
      | .bytesStream b => .ok (some b)
      | .bytes _ => .ok none
      | .unsupported => .error .typeError
    match input_bytes with
    | .error e => (.error e, [])
    | .ok input_file_bytes =>
      match validate_xml env (policy_source env content_management_policy) with
      | .error e => (.error e, [])
      | .ok policy_xml =>
        let tr0 : List Event := [.declare_argtypes declared]
        match input_file_bytes with
        | none => (.error .unboundLocalError, tr0)
        | some ib =>
          let target := if env.dirs.contains env.library_path then env.library_path
                        else dirname env.sep env.library_path
          let r := env.engine.call invoked ib policy_xml
          let tr1 := tr0 ++ [.chdir target, .native_call invoked ib policy_xml, .chdir env.cwd]
          if r.status ∈ env.success_codes ∨ raise_unsupported = false then
            let out_file := buffer_to_bytes r.file_buffer r.file_length
            let out_report := buffer_to_bytes r.report_buffer r.report_length
            (.ok ⟨r.status, out_file, out_report⟩,
              tr1 ++ opWrites output_file out_file ++ opWrites output_report out_report)
          else (.error (engine_error env r.status), tr1)

/-- `ArchiveManager.Decorators.release_after`: call the function, then call
`self.release()` (which invokes `GwArchiveDone`), then return the result —
there is no try/finally, so an exception escaping the function body skips the
release call -/
def release_after (r : Except PyErr GwReturnObj × List Event) :
    Except PyErr GwReturnObj × List Event :=
  match r with
  | (.ok v, tr) => (.ok v, tr ++ [.release_call])
  | (.error e, tr) => (.error e, tr)

/-- `ArchiveManager.analyse_archive`: declares argtypes on
`GwFileAnalysisArchive` and invokes `GwFileAnalysisArchive`, wrapped in
`release_after` -/
def analyse_archive (env : Env) (input_file : InputFile)
    (output_file output_report : Option Path)
    (content_management_policy : PolicyInput) (raise_unsupported : Bool) :
    Except PyErr GwReturnObj × List Event :=
  release_after (archive_operation_body .GwFileAnalysisArchive .GwFileAnalysisArchive env
    input_file output_file output_report content_management_policy raise_unsupported)

/-- `ArchiveManager.protect_archive`: declares argtypes on
`GwFileAnalysisArchive` (line 244 of the source) yet invokes
`GwFileProtectAndReportArchive` (line 268), wrapped in `release_after` -/
def protect_archive (env : Env) (input_file : InputFile)
    (output_file output_report : Option Path)
    (content_management_policy : PolicyInput) (raise_unsupported : Bool) :
    Except PyErr GwReturnObj × List Event :=
  release_after (archive_operation_body .GwFileAnalysisArchive .GwFileProtectAndReportArchive env
    input_file output_file output_report content_management_policy raise_unsupported)

/-! ## Directory (batch) operations -/

/-- `gw_utils.list_file_paths` (recursive): every file under the directory in
filesystem order, as absolute paths or as paths relative to the directory -/
def list_file_paths (env : Env) (directory : Path) (absolute : Bool) :
    Except PyErr (List Path) :=
  if env.dirs.contains directory then
    let files := (env.fs.map Prod.fst).filter
      (fun p => List.isPrefixOf (directory ++ [env.sep]) p)
    .ok (if absolute then files else files.map (fun p => p.drop (directory.length + 1)))
  else .error (.notADirectoryError directory)

/-- a python dict as an insertion-ordered association list: inserting an
existing key overwrites in place, a new key is appended -/
abbrev PyDict := List (Path × GwReturnObj)

def dictInsert (d : PyDict) (k : Path) (v : GwReturnObj) : PyDict :=
  if (d.lookup k).isSome then d.map (fun kv => if kv.1 = k then (k, v) else kv)
  else d ++ [(k, v)]

/-- loop of `ArchiveManager.analyse_directory` over the relative paths -/
def analyse_directory_go (env : Env) (input_directory output_directory : Path)
    (content_management_policy : PolicyInput) (raise_unsupported : Bool) :
    List Path → List Event → Except PyErr (Option PyDict) × List Event
  | [], tr => (.ok none, tr)
  | rel :: rest, tr =>
    let input_file := input_directory ++ env.sep :: rel
    let output_file := output_directory ++ env.sep :: rel
    match analyse_archive env (.path input_file) (some output_file)
        (some (output_file ++ ".xml".data)) content_management_policy raise_unsupported with
    | (.error e, tr2) => (.error e, tr ++ tr2)
    | (.ok _, tr2) =>
      analyse_directory_go env input_directory output_directory
        content_management_policy raise_unsupported rest (tr ++ tr2)

/-- `ArchiveManager.analyse_directory`: calls `analyse_archive` on each file
under `input_directory` (report path = output path + ".xml") and returns
`None` — the python function has no return statement -/
def analyse_directory (env : Env) (input_directory output_directory : Path)
    (content_management_policy : PolicyInput) (raise_unsupported : Bool) :
    Except PyErr (Option PyDict) × List Event :=
  match list_file_paths env input_directory false with
  | .error e => (.error e, [])
  | .ok rels =>
    analyse_directory_go env input_directory output_directory
      content_management_policy raise_unsupported rels []

/-- loop of `ArchiveManager.protect_directory` over the absolute paths -/
def protect_directory_go (env : Env) (input_directory : Path)
    (output_directory output_report_directory : Option Path)
    (content_management_policy : PolicyInput) (raise_unsupported : Bool) :
    List Path → PyDict → List Event → Except PyErr (Option PyDict) × List Event
  | [], dict, tr => (.ok (some dict), tr)
  | p :: rest, dict, tr =>
    let rel := p.drop (input_directory.length + 1)
    let out := output_directory.map (fun od => od ++ env.sep :: rel)
    let rep := output_report_directory.map (fun rd => rd ++ env.sep :: (rel ++ ".xml".data))
    match protect_archive env (.path p) out rep content_management_policy raise_unsupported with
    | (.error e, tr2) => (.error e, tr ++ tr2)
    | (.ok v, tr2) =>
      protect_directory_go env input_directory output_directory output_report_directory
        content_management_policy raise_unsupported rest (dictInsert dict rel v) (tr ++ tr2)

/-- `ArchiveManager.protect_directory`: calls `protect_archive` on each file
under `input_directory` and returns the dict keyed by
`os.path.relpath(input_file, input_directory)` (host separator form) -/
def protect_directory (env : Env) (input_directory : Path)
    (output_directory output_report_directory : Option Path)
    (content_management_policy : PolicyInput) (raise_unsupported : Bool) :
    Except PyErr (Option PyDict) × List Event :=
  match list_file_paths env input_directory true with
  | .error e => (.error e, [])
  | .ok files =>
    protect_directory_go env input_directory output_directory output_report_directory
      content_management_policy raise_unsupported files [] []

/-! ## CwdHandler -/

/-- `gw_utils.CwdHandler` together with the semantics of the python
with-statement.  `__init__` computes the target directory (the argument when
it is a directory, else its dirname) and records the current working
directory; `__enter__` chdirs to the target; `__exit__` chdirs back to the
recorded directory.  The with-statement runs `__exit__` on every exit path,
normal or exceptional, and since `__exit__` returns `None` an exception keeps
propagating.  The body is an arbitrary state transformer on the ambient
working directory that may itself chdir and may raise. -/
def with_cwd_handler {α : Type} (isdir : Path → Bool) (sep : Char) (new_cwd : Path)
    (body : Path → Except PyErr α × Path) (cwd0 : Path) : Except PyErr α × Path :=
  let target := if isdir new_cwd then new_cwd else dirname sep new_cwd
  let old_cwd := cwd0
  let (res, _cwd_after_body) := body target
  (res, old_cwd)

/-! ## Input-buffer marshalling (archive_manager lines 117-119) -/

/-- a heap of mutable python buffer objects (the caller's bytearray is one
cell); cells are addressed by index -/
abbrev BufHeap := List Bytes

def heapGet (h : BufHeap) (i : Nat) : Bytes := h[i]?.getD []

def heapSet (h : BufHeap) (i : Nat) (b : Bytes) : BufHeap := h.set i b

/-- marshalling of a bytearray input: `input_file_bytes =
utils.as_bytes(input_file)` takes an immutable copy (`bytes(file_)`), then
`input_buffer_bytearray = bytearray(input_file_bytes)` allocates a fresh
mutable buffer, and `(ct.c_ubyte * n).from_buffer(input_buffer_bytearray)`
aliases that fresh buffer — so the address handed to the native call is the
fresh cell's, never the caller's.  Returns the extended heap and the index of
the buffer the native call receives. -/
def marshal_bytearray_input (h : BufHeap) (caller : Nat) : BufHeap × Nat :=
  let input_file_bytes := heapGet h caller
  let input_buffer_bytearray := input_file_bytes
  (h ++ [input_buffer_bytearray], h.length)

/-! ## Status resolution and trace observations -/

/-- the three-way classification of a status code: member of the success set;
known failure (with its mapped error kind); unknown code -/
inductive Outcome where
  | success (code : Int)
  | knownFailure (kind : Nat) (code : Int)
  | unknownFailure (code : Int)
deriving DecidableEq, Repr

/-- the classification performed by lines 140-142 / 278-280 of the source:
the success set is consulted first, then the failure mapping, and a code in
neither yields the catch-all carrying the raw code -/
def resolve_status (success_codes : List Int) (error_codes : List (Int × Nat))
    (code : Int) : Outcome :=
  if code ∈ success_codes then .success code
  else
    match error_codes.lookup code with
    | some kind => .knownFailure kind code
    | none => .unknownFailure code

/-- entry points whose argtypes were declared, in trace order -/
def declared_eps (tr : List Event) : List EntryPoint :=
  tr.filterMap (fun e => match e with | .declare_argtypes ep => some ep | _ => none)

/-- entry points invoked, in trace order -/
def invoked_eps (tr : List Event) : List EntryPoint :=
  tr.filterMap (fun e => match e with | .native_call ep _ _ => some ep | _ => none)

/-- policy C-strings handed to native calls, in trace order -/
def policies_used (tr : List Event) : List Str :=
  tr.filterMap (fun e => match e with | .native_call _ _ pol => some pol | _ => none)

/-- input buffers handed to native calls, in trace order -/
def inputs_used (tr : List Event) : List Bytes :=
  tr.filterMap (fun e => match e with | .native_call _ input _ => some input | _ => none)

/-- files written, in trace order -/
def write_events (tr : List Event) : List (Path × Bytes) :=
  tr.filterMap (fun e => match e with | .write_file p c => some (p, c) | _ => none)

/-- the write a non-empty artifact produces at a supplied path -/
def optWrite (p : Path) (content : Bytes) : List (Path × Bytes) :=
  if content.isEmpty then [] else [(p, content)]

/-- did the call return normally? -/
def exceptOk {ε α : Type} : Except ε α → Bool
  | .ok _ => true
  | .error _ => false

/-! ## Concrete test fixtures -/

/-- a native double that succeeds with status 0, echoing the input plus a
marker byte as the processed file and a fixed report -/
def testEngine : Engine :=
  ⟨fun _ input _ => ⟨0, some (input ++ [7]), input.length + 1, some [9, 9], 2⟩⟩

/-- a native double that always fails with status 5 (a known failure code in
`env0`) -/
def failEngine : Engine :=
  ⟨fun _ _ _ => ⟨5, none, 0, none, 0⟩⟩

/-- a native double that always fails with status 99 (in neither table) -/
def unknownEngine : Engine :=
  ⟨fun _ _ _ => ⟨99, none, 0, none, 0⟩⟩

/-- a native double that succeeds with empty output buffers -/
def emptyOutputEngine : Engine :=
  ⟨fun _ _ _ => ⟨0, none, 0, none, 0⟩⟩

/-- a small concrete environment: one archive on disk, success codes {0, 1},
one known failure code 5 mapped to error kind 20 -/
def env0 : Env :=
  { fs := [("/in/a.zip".data, [1, 2, 3])]
    dirs := ["/in".data, "/lib".data]
    sep := '/'
    cwd := "/home".data
    library_path := "/lib".data
    engine := testEngine
    success_codes := [0, 1]
    error_codes := [(5, 20)] }

/-- `env0` with the engine replaced -/
def envWith (e : Engine) : Env := { env0 with engine := e }

/-- the directory `CwdHandler` switches to for the native call -/
def cwdTarget (env : Env) : Path :=
  if env.dirs.contains env.library_path then env.library_path
  else dirname env.sep env.library_path

/-- the result object built from one native call -/
def op_result (r : EngineResult) : GwReturnObj :=
  ⟨r.status, buffer_to_bytes r.file_buffer r.file_length,
    buffer_to_bytes r.report_buffer r.report_length⟩

/-- the canonical form of the default policy -/
def defaultPolicyXml : Str := xmlDecl ++ "<config/>\n".data

/-! ## Trace lemmas -/

lemma count_release_opWrites (p : Option Path) (c : Bytes) :
    (opWrites p c).count Event.release_call = 0 := by
  unfold opWrites
  split <;> simp

/-- the operation body itself never calls release -/
lemma body_count_release (d i : EntryPoint) (env : Env) (inp : InputFile)
    (o r : Option Path) (pol : PolicyInput) (ru : Bool) :
    ((archive_operation_body d i env inp o r pol ru).2).count Event.release_call = 0 := by
  unfold archive_operation_body
  repeat' split
  all_goals simp [count_release_opWrites, List.count_append, List.count_cons]
  all_goals split <;> simp [count_release_opWrites, List.count_append, List.count_cons]

/-- the decorator adds exactly one release call after a normal return and
none otherwise -/
lemma release_after_count (x : Except PyErr GwReturnObj × List Event)
    (hx : x.2.count Event.release_call = 0) :
    (release_after x).2.count Event.release_call
      = if exceptOk (release_after x).1 then 1 else 0 := by
  match x with
  | (.ok v, tr) =>
    simp only [release_after, exceptOk]
    simp [List.count_append, hx]
  | (.error e, tr) =>
    simp only [release_after, exceptOk]
    exact hx

/-- C1 (amended): `GwArchiveDone` is invoked exactly once when
`analyse_archive` / `protect_archive` returns normally (success, or an
engine failure with `raise_unsupported=False`), and not at all when the
operation raises — the decorator `release_after` has no try/finally, so any
exception skips the release call. -/
theorem release_runs_iff_operation_returns (env : Env) (inp : InputFile)
    (o r : Option Path) (pol : PolicyInput) (ru : Bool) :
    ((analyse_archive env inp o r pol ru).2.count Event.release_call
        = if exceptOk (analyse_archive env inp o r pol ru).1 then 1 else 0)
  ∧ ((protect_archive env inp o r pol ru).2.count Event.release_call
        = if exceptOk (protect_archive env inp o r pol ru).1 then 1 else 0) := by
  simp only [analyse_archive, protect_archive]
  exact ⟨release_after_count _ (body_count_release _ _ _ _ _ _ _ _),
    release_after_count _ (body_count_release _ _ _ _ _ _ _ _)⟩

/-- evaluation of the body on a bytearray input once the policy has
normalised -/
lemma body_eval (d i : EntryPoint) (env : Env) (b : Bytes) (o rp : Option Path)
    (pol : PolicyInput) (ru : Bool) (xs : Str)
    (hpol : validate_xml env (policy_source env pol) = .ok xs) :
    archive_operation_body d i env (.byteArray b) o rp pol ru =
      (let r := env.engine.call i b xs
       let tr := [Event.declare_argtypes d, .chdir (cwdTarget env),
         .native_call i b xs, .chdir env.cwd]
       if r.status ∈ env.success_codes ∨ ru = false then
         (.ok (op_result r),
           tr ++ opWrites o (buffer_to_bytes r.file_buffer r.file_length)
              ++ opWrites rp (buffer_to_bytes r.report_buffer r.report_length))
       else (.error (engine_error env r.status), tr)) := by
  have hc : ¬ pol = PolicyInput.unsupported := by
    intro h
    rw [h] at hpol
    simp [validate_xml, policy_source] at hpol
  have hb : ¬ (InputFile.byteArray b = InputFile.unsupported) := by simp
  unfold archive_operation_body
  rw [if_neg hb, if_neg hc]
  simp only [hpol, cwdTarget, op_result]
  split <;> simp

/-- a path input whose file holds bytes `b` behaves exactly like the
bytearray input `b` -/
lemma body_path_eq_bytearray (d i : EntryPoint) (env : Env) (p : Path) (b : Bytes)
    (o rp : Option Path) (pol : PolicyInput) (ru : Bool)
    (hf : env.fs.lookup p = some b) :
    archive_operation_body d i env (.path p) o rp pol ru =
      archive_operation_body d i env (.byteArray b) o rp pol ru := by
  unfold archive_operation_body
  simp [hf]

/-- an io.BytesIO input behaves exactly like the bytearray input -/
lemma body_bytesio_eq_bytearray (d i : EntryPoint) (env : Env) (b : Bytes)
    (o rp : Option Path) (pol : PolicyInput) (ru : Bool) :
    archive_operation_body d i env (.bytesStream b) o rp pol ru =
      archive_operation_body d i env (.byteArray b) o rp pol ru := rfl

/-- a raw bytes input reaches the buffer initialisation with the local
input_file_bytes unassigned and raises UnboundLocalError there -/
lemma body_bytes_eval (d i : EntryPoint) (env : Env) (b : Bytes) (o rp : Option Path)
    (pol : PolicyInput) (ru : Bool) (xs : Str)
    (hpol : validate_xml env (policy_source env pol) = .ok xs) :
    archive_operation_body d i env (.bytes b) o rp pol ru =
      (.error .unboundLocalError, [.declare_argtypes d]) := by
  have hc : ¬ pol = PolicyInput.unsupported := by
    intro h
    rw [h] at hpol
    simp [validate_xml, policy_source] at hpol
  unfold archive_operation_body
  simp [hpol, hc]

/-- C1 counterexample: a typed engine failure raised with
raise_unsupported set escapes before the decorator's release call, so
`GwArchiveDone` is invoked zero times on that path, not exactly once as
claimed. -/
theorem release_skipped_on_engine_failure :
    (analyse_archive (envWith failEngine) (.byteArray [1]) none none .nonePolicy true).1
      = .error (.engineError 20 5)
  ∧ (analyse_archive (envWith failEngine) (.byteArray [1]) none none
      .nonePolicy true).2.count Event.release_call = 0 :=
  ⟨rfl, rfl⟩

/-- C3 (the code diverges from the claim, shown at a failing input):
`analyse_archive` declares the calling convention on `GwFileAnalysisArchive`
and invokes that same entry point, but `protect_archive` also declares it on
`GwFileAnalysisArchive` — not on the `GwFileProtectAndReportArchive` entry
point it then invokes. -/
theorem protect_declares_argtypes_on_analysis_entry_point :
    declared_eps (protect_archive env0 (.byteArray [1]) none none .nonePolicy true).2
      = [.GwFileAnalysisArchive]
  ∧ invoked_eps (protect_archive env0 (.byteArray [1]) none none .nonePolicy true).2
      = [.GwFileProtectAndReportArchive]
  ∧ declared_eps (analyse_archive env0 (.byteArray [1]) none none .nonePolicy true).2
      = [.GwFileAnalysisArchive]
  ∧ invoked_eps (analyse_archive env0 (.byteArray [1]) none none .nonePolicy true).2
      = [.GwFileAnalysisArchive] :=
  ⟨rfl, rfl, rfl, rfl⟩

/-- C5: once the native call returns, its status code is classified in
order — a code in the success set yields the normally-returned result object
and no engine error is raised; a code absent from the success set but present
in the failure mapping raises (when raising is enabled) the error kind mapped
to it; a code in neither table raises the catch-all UnknownErrorCode built
from the raw code.  With raising disabled the result object is returned in
all three cases. -/
theorem status_resolution_three_way (env : Env) (b : Bytes) (o rp : Option Path)
    (pol : PolicyInput) (ru : Bool) (xs : Str)
    (hpol : validate_xml env (policy_source env pol) = .ok xs) :
    ((analyse_archive env (.byteArray b) o rp pol ru).1 =
      (match resolve_status env.success_codes env.error_codes
          (env.engine.call .GwFileAnalysisArchive b xs).status with
       | .success _ => .ok (op_result (env.engine.call .GwFileAnalysisArchive b xs))
       | .knownFailure k c =>
         if ru then .error (.engineError k c)
         else .ok (op_result (env.engine.call .GwFileAnalysisArchive b xs))
       | .unknownFailure c =>
         if ru then .error (.unknownErrorCode c)
         else .ok (op_result (env.engine.call .GwFileAnalysisArchive b xs))))
  ∧ ((protect_archive env (.byteArray b) o rp pol ru).1 =
      (match resolve_status env.success_codes env.error_codes
          (env.engine.call .GwFileProtectAndReportArchive b xs).status with
       | .success _ => .ok (op_result (env.engine.call .GwFileProtectAndReportArchive b xs))
       | .knownFailure k c =>
         if ru then .error (.engineError k c)
         else .ok (op_result (env.engine.call .GwFileProtectAndReportArchive b xs))
       | .unknownFailure c =>
         if ru then .error (.unknownErrorCode c)
         else .ok (op_result (env.engine.call .GwFileProtectAndReportArchive b xs)))) := by
  have key : ∀ i : EntryPoint,
      (release_after (archive_operation_body .GwFileAnalysisArchive i env
        (.byteArray b) o rp pol ru)).1 =
      (match resolve_status env.success_codes env.error_codes
          (env.engine.call i b xs).status with
       | .success _ => .ok (op_result (env.engine.call i b xs))
       | .knownFailure k c =>
         if ru then .error (.engineError k c) else .ok (op_result (env.engine.call i b xs))
       | .unknownFailure c =>
         if ru then .error (.unknownErrorCode c) else .ok (op_result (env.engine.call i b xs))) := by
    intro i
    rw [body_eval _ _ _ _ _ _ _ _ _ hpol]
    unfold resolve_status engine_error
    by_cases hs : (env.engine.call i b xs).status ∈ env.success_codes
    · simp [hs, release_after]
    · by_cases hr : ru
      · cases hl : env.error_codes.lookup (env.engine.call i b xs).status <;>
          simp [hs, hr, hl, release_after]
      · simp at hr
        cases hl : env.error_codes.lookup (env.engine.call i b xs).status <;>
          simp [hs, hr, hl, release_after]
  exact ⟨key _, key _⟩

/-- witness for C5 at a concrete input: the default policy normalises, and
the classification of the three fixture engines (success code 0, known
failure 5 ↦ kind 20, unknown code 99) matches the raised errors. -/
theorem status_resolution_three_way_witness :
    (validate_xml env0 (policy_source env0 .nonePolicy) = .ok (xmlDecl ++ "<config/>\n".data))
  ∧ (analyse_archive env0 (.byteArray [1]) none none .nonePolicy true).1
      = .ok ⟨0, [1, 7], [9, 9]⟩
  ∧ (analyse_archive (envWith failEngine) (.byteArray [1]) none none .nonePolicy true).1
      = .error (.engineError 20 5)
  ∧ (analyse_archive (envWith unknownEngine) (.byteArray [1]) none none .nonePolicy true).1
      = .error (.unknownErrorCode 99) := by
  refine ⟨rfl, ?_, ?_, ?_⟩
  · have h := (status_resolution_three_way env0 [1] none none .nonePolicy true
      (xmlDecl ++ "<config/>\n".data) rfl).1
    rw [h]
    rfl
  · have h := (status_resolution_three_way (envWith failEngine) [1] none none .nonePolicy true
      (xmlDecl ++ "<config/>\n".data) rfl).1
    rw [h]
    rfl
  · have h := (status_resolution_three_way (envWith unknownEngine) [1] none none .nonePolicy true
      (xmlDecl ++ "<config/>\n".data) rfl).1
    rw [h]
    rfl

lemma write_events_append (a b : List Event) :
    write_events (a ++ b) = write_events a ++ write_events b := by
  unfold write_events
  exact List.filterMap_append ..

lemma write_events_opWrites (p : Option Path) (c : Bytes) :
    write_events (opWrites p c) =
      (match p with | some q => optWrite q c | none => []) := by
  unfold opWrites optWrite write_events
  cases p <;> cases c <;> simp

/-- evaluation of a whole operation on a bytearray input when the native
status is a success code -/
lemma op_success_eval (d i : EntryPoint) (env : Env) (b : Bytes) (o rp : Option Path)
    (pol : PolicyInput) (ru : Bool) (xs : Str)
    (hpol : validate_xml env (policy_source env pol) = .ok xs)
    (hs : (env.engine.call i b xs).status ∈ env.success_codes) :
    release_after (archive_operation_body d i env (.byteArray b) o rp pol ru)
      = (.ok (op_result (env.engine.call i b xs)),
         ([Event.declare_argtypes d, .chdir (cwdTarget env), .native_call i b xs,
            .chdir env.cwd]
           ++ opWrites o (buffer_to_bytes (env.engine.call i b xs).file_buffer
                (env.engine.call i b xs).file_length)
           ++ opWrites rp (buffer_to_bytes (env.engine.call i b xs).report_buffer
                (env.engine.call i b xs).report_length)) ++ [.release_call]) := by
  rw [body_eval _ _ _ _ _ _ _ _ _ hpol]
  simp only []
  rw [if_pos (Or.inl hs)]
  simp [release_after, List.append_assoc]

/-- C7: the output artifacts of the result object are exactly the bytes
copied out of the two native buffers (present even when empty); a file is
written to a supplied path only when the corresponding artifact is
non-empty, so a zero-length native buffer produces no file at all at its
path; and reconstructing from a (pointer, length) pair with length zero
yields empty bytes rather than an error. -/
theorem empty_output_not_written (env : Env) (b : Bytes) (pf pr : Path)
    (pol : PolicyInput) (ru : Bool) (xs : Str)
    (hpol : validate_xml env (policy_source env pol) = .ok xs)
    (hstA : (env.engine.call .GwFileAnalysisArchive b xs).status ∈ env.success_codes)
    (hstP : (env.engine.call .GwFileProtectAndReportArchive b xs).status
      ∈ env.success_codes) :
    (∀ buf, buffer_to_bytes buf 0 = [])
  ∧ ((analyse_archive env (.byteArray b) (some pf) (some pr) pol ru).1
      = .ok (op_result (env.engine.call .GwFileAnalysisArchive b xs)))
  ∧ (write_events (analyse_archive env (.byteArray b) (some pf) (some pr) pol ru).2
      = optWrite pf (buffer_to_bytes (env.engine.call .GwFileAnalysisArchive b xs).file_buffer
            (env.engine.call .GwFileAnalysisArchive b xs).file_length)
        ++ optWrite pr (buffer_to_bytes (env.engine.call .GwFileAnalysisArchive b xs).report_buffer
            (env.engine.call .GwFileAnalysisArchive b xs).report_length))
  ∧ ((env.engine.call .GwFileAnalysisArchive b xs).file_length = 0 →
      (op_result (env.engine.call .GwFileAnalysisArchive b xs)).output_file = []
    ∧ write_events (analyse_archive env (.byteArray b) (some pf) (some pr) pol ru).2
        = optWrite pr (buffer_to_bytes (env.engine.call .GwFileAnalysisArchive b xs).report_buffer
            (env.engine.call .GwFileAnalysisArchive b xs).report_length))
  ∧ ((protect_archive env (.byteArray b) (some pf) (some pr) pol ru).1
      = .ok (op_result (env.engine.call .GwFileProtectAndReportArchive b xs)))
  ∧ (write_events (protect_archive env (.byteArray b) (some pf) (some pr) pol ru).2
      = optWrite pf (buffer_to_bytes (env.engine.call .GwFileProtectAndReportArchive b xs).file_buffer
            (env.engine.call .GwFileProtectAndReportArchive b xs).file_length)
        ++ optWrite pr (buffer_to_bytes
            (env.engine.call .GwFileProtectAndReportArchive b xs).report_buffer
            (env.engine.call .GwFileProtectAndReportArchive b xs).report_length))
  ∧ ((env.engine.call .GwFileProtectAndReportArchive b xs).report_length = 0 →
      (op_result (env.engine.call .GwFileProtectAndReportArchive b xs)).output_report = []
    ∧ write_events (protect_archive env (.byteArray b) (some pf) (some pr) pol ru).2
        = optWrite pf (buffer_to_bytes
            (env.engine.call .GwFileProtectAndReportArchive b xs).file_buffer
            (env.engine.call .GwFileProtectAndReportArchive b xs).file_length)) := by
  have evA := op_success_eval .GwFileAnalysisArchive .GwFileAnalysisArchive env b
    (some pf) (some pr) pol ru xs hpol hstA
  have evP := op_success_eval .GwFileAnalysisArchive .GwFileProtectAndReportArchive env b
    (some pf) (some pr) pol ru xs hpol hstP
  have wA : write_events (analyse_archive env (.byteArray b) (some pf) (some pr) pol ru).2
      = optWrite pf (buffer_to_bytes (env.engine.call .GwFileAnalysisArchive b xs).file_buffer
            (env.engine.call .GwFileAnalysisArchive b xs).file_length)
        ++ optWrite pr (buffer_to_bytes (env.engine.call .GwFileAnalysisArchive b xs).report_buffer
            (env.engine.call .GwFileAnalysisArchive b xs).report_length) := by
    unfold analyse_archive
    rw [evA]
    simp only [write_events_append, write_events_opWrites]
    simp [write_events]
  have wP : write_events (protect_archive env (.byteArray b) (some pf) (some pr) pol ru).2
      = optWrite pf (buffer_to_bytes
            (env.engine.call .GwFileProtectAndReportArchive b xs).file_buffer
            (env.engine.call .GwFileProtectAndReportArchive b xs).file_length)
        ++ optWrite pr (buffer_to_bytes
            (env.engine.call .GwFileProtectAndReportArchive b xs).report_buffer
            (env.engine.call .GwFileProtectAndReportArchive b xs).report_length) := by
    unfold protect_archive
    rw [evP]
    simp only [write_events_append, write_events_opWrites]
    simp [write_events]
  refine ⟨fun buf => by simp [buffer_to_bytes], ?_, wA, ?_, ?_, wP, ?_⟩
  · unfold analyse_archive
    rw [evA]
  · intro h0
    refine ⟨by simp [op_result, buffer_to_bytes, h0], ?_⟩
    rw [wA, h0]
    simp [buffer_to_bytes, optWrite]
  · unfold protect_archive
    rw [evP]
  · intro h0
    refine ⟨by simp [op_result, buffer_to_bytes, h0], ?_⟩
    rw [wP, h0]
    simp [buffer_to_bytes, optWrite]

/-- witness for C7: with the fixture engine that reports zero-length
buffers, both operations return empty artifacts and write no files even
though both output paths were supplied. -/
theorem empty_output_not_written_witness :
    (validate_xml (envWith emptyOutputEngine)
        (policy_source (envWith emptyOutputEngine) .nonePolicy) = .ok defaultPolicyXml)
  ∧ (((envWith emptyOutputEngine).engine.call .GwFileAnalysisArchive [1]
        defaultPolicyXml).status ∈ (envWith emptyOutputEngine).success_codes)
  ∧ (analyse_archive (envWith emptyOutputEngine) (.byteArray [1])
        (some "/out/f".data) (some "/out/r".data) .nonePolicy true).1 = .ok ⟨0, [], []⟩
  ∧ write_events (analyse_archive (envWith emptyOutputEngine) (.byteArray [1])
        (some "/out/f".data) (some "/out/r".data) .nonePolicy true).2 = []
  ∧ write_events (protect_archive (envWith emptyOutputEngine) (.byteArray [1])
        (some "/out/f".data) (some "/out/r".data) .nonePolicy true).2 = [] := by
  have h := empty_output_not_written (envWith emptyOutputEngine) [1]
    "/out/f".data "/out/r".data .nonePolicy true defaultPolicyXml rfl
    (by decide) (by decide)
  refine ⟨rfl, by decide, ?_, ?_, ?_⟩
  · rw [h.2.1]
    rfl
  · rw [h.2.2.1]
    rfl
  · rw [h.2.2.2.2.2.1]
    rfl

lemma policies_used_append (a b : List Event) :
    policies_used (a ++ b) = policies_used a ++ policies_used b := by
  unfold policies_used
  exact List.filterMap_append ..

lemma policies_used_opWrites (p : Option Path) (c : Bytes) :
    policies_used (opWrites p c) = [] := by
  unfold opWrites policies_used
  cases p <;> cases c <;> simp

/-- under a failing policy validation the body raises that error before the
argtypes declaration -/
lemma body_policy_error (d i : EntryPoint) (env : Env) (b : Bytes) (o rp : Option Path)
    (pol : PolicyInput) (ru : Bool) (e : PyErr)
    (hpol : validate_xml env (policy_source env pol) = .error e)
    (hc : pol ≠ PolicyInput.unsupported) :
    archive_operation_body d i env (.byteArray b) o rp pol ru = (.error e, []) := by
  have hb : ¬ (InputFile.byteArray b = InputFile.unsupported) := by simp
  unfold archive_operation_body
  rw [if_neg hb, if_neg hc]
  simp only [hpol]

lemma validate_xml_str_nonfile (env : Env) (s : Str) (hnot : env.fs.lookup s = none) :
    validate_xml env (.str s) =
      (match normalize_xml_string s with
       | none => .error .valueError
       | some x => .ok x) := by
  unfold validate_xml isfile
  simp [hnot]

lemma policy_source_str_nonfile (env : Env) (s : Str) (hnot : env.fs.lookup s = none) :
    policy_source env (.str s) = .str s := by
  unfold policy_source isfile
  simp [hnot]

/-- C9: a string policy that is not a path to an existing file is treated as
XML text by both operations — a malformed string raises ValueError (not
FileNotFoundError), and a well-formed string is normalised and handed to the
native call as the policy C-string. -/
theorem policy_string_treated_as_xml (env : Env) (s : Str) (b : Bytes)
    (o rp : Option Path) (ru : Bool) (hnot : env.fs.lookup s = none) :
    (normalize_xml_string s = none →
        (analyse_archive env (.byteArray b) o rp (.str s) ru).1 = .error .valueError
      ∧ (protect_archive env (.byteArray b) o rp (.str s) ru).1 = .error .valueError)
  ∧ (∀ x, normalize_xml_string s = some x →
        policies_used (analyse_archive env (.byteArray b) o rp (.str s) ru).2 = [x]
      ∧ policies_used (protect_archive env (.byteArray b) o rp (.str s) ru).2 = [x]) := by
  have hps := policy_source_str_nonfile env s hnot
  have hvx := validate_xml_str_nonfile env s hnot
  constructor
  · intro hn
    have hpol : validate_xml env (policy_source env (.str s)) = .error .valueError := by
      rw [hps, hvx, hn]
    have key : ∀ i,
        (release_after (archive_operation_body .GwFileAnalysisArchive i env
          (.byteArray b) o rp (.str s) ru)).1 = .error .valueError := by
      intro i
      rw [body_policy_error _ _ _ _ _ _ _ _ _ hpol (by simp)]
      rfl
    exact ⟨key _, key _⟩
  · intro x hx
    have hpol : validate_xml env (policy_source env (.str s)) = .ok x := by
      rw [hps, hvx, hx]
    have key : ∀ i,
        policies_used (release_after (archive_operation_body .GwFileAnalysisArchive i env
          (.byteArray b) o rp (.str s) ru)).2 = [x] := by
      intro i
      rw [body_eval _ _ _ _ _ _ _ _ _ hpol]
      simp only []
      split <;>
        (simp only [release_after, policies_used_append, policies_used_opWrites]
         simp [policies_used])
    exact ⟨key _, key _⟩

/-- witness for C9: a well-formed policy string that is not an existing path
is normalised and used by the native call. -/
theorem policy_string_treated_as_xml_witness :
    env0.fs.lookup "<a/>".data = none
  ∧ normalize_xml_string "<a/>".data = some (xmlDecl ++ "<a/>\n".data)
  ∧ policies_used (analyse_archive env0 (.byteArray [1]) none none
      (.str "<a/>".data) true).2 = [xmlDecl ++ "<a/>\n".data]
  ∧ policies_used (protect_archive env0 (.byteArray [1]) none none
      (.str "<a/>".data) true).2 = [xmlDecl ++ "<a/>\n".data] := by
  have h := (policy_string_treated_as_xml env0 "<a/>".data [1] none none true rfl).2
    (xmlDecl ++ "<a/>\n".data) rfl
  exact ⟨rfl, rfl, h.1, h.2⟩

/-- C2 (the code diverges from the claim, shown at the bytes shape): a path
input, a bytearray input and an io.BytesIO input carrying the same bytes
produce identical results and traces, but a raw bytes input — accepted by the
argument type check and documented as supported — raises UnboundLocalError,
because neither branch of the input conversion assigns input_file_bytes for
it. -/
theorem bytes_input_raises_unbound_local (env : Env) (p : Path) (b : Bytes)
    (o rp : Option Path) (pol : PolicyInput) (ru : Bool)
    (hf : env.fs.lookup p = some b) :
    analyse_archive env (.path p) o rp pol ru = analyse_archive env (.byteArray b) o rp pol ru
  ∧ analyse_archive env (.bytesStream b) o rp pol ru = analyse_archive env (.byteArray b) o rp pol ru
  ∧ protect_archive env (.path p) o rp pol ru = protect_archive env (.byteArray b) o rp pol ru
  ∧ protect_archive env (.bytesStream b) o rp pol ru = protect_archive env (.byteArray b) o rp pol ru
  ∧ (∀ xs, validate_xml env (policy_source env pol) = .ok xs →
        (analyse_archive env (.bytes b) o rp pol ru).1 = .error .unboundLocalError
      ∧ (protect_archive env (.bytes b) o rp pol ru).1 = .error .unboundLocalError) := by
  refine ⟨?_, ?_, ?_, ?_, ?_⟩
  · unfold analyse_archive
    rw [body_path_eq_bytearray _ _ _ _ _ _ _ _ _ hf]
  · unfold analyse_archive
    rw [body_bytesio_eq_bytearray]
  · unfold protect_archive
    rw [body_path_eq_bytearray _ _ _ _ _ _ _ _ _ hf]
  · unfold protect_archive
    rw [body_bytesio_eq_bytearray]
  · intro xs hpol
    have key : ∀ i,
        (release_after (archive_operation_body .GwFileAnalysisArchive i env
          (.bytes b) o rp pol ru)).1 = .error .unboundLocalError := by
      intro i
      rw [body_bytes_eval _ _ _ _ _ _ _ _ _ hpol]
      rfl
    exact ⟨key _, key _⟩

/-- witness for C2 at the concrete archive of the fixture filesystem -/
theorem bytes_input_raises_unbound_local_witness :
    env0.fs.lookup "/in/a.zip".data = some [1, 2, 3]
  ∧ analyse_archive env0 (.path "/in/a.zip".data) none none .nonePolicy true
      = analyse_archive env0 (.byteArray [1, 2, 3]) none none .nonePolicy true
  ∧ (analyse_archive env0 (.bytes [1, 2, 3]) none none .nonePolicy true).1
      = .error .unboundLocalError
  ∧ (protect_archive env0 (.bytes [1, 2, 3]) none none .nonePolicy true).1
      = .error .unboundLocalError := by
  have h := bytes_input_raises_unbound_local env0 "/in/a.zip".data [1, 2, 3]
    none none .nonePolicy true rfl
  have h5 := h.2.2.2.2 defaultPolicyXml rfl
  exact ⟨rfl, h.1, h5.1, h5.2⟩

/-! ## Directory-operation lemmas -/

lemma lookup_append_none {α β : Type} [BEq α] (l1 l2 : List (α × β)) (k : α)
    (h1 : l1.lookup k = none) (h2 : l2.lookup k = none) :
    (l1 ++ l2).lookup k = none := by
  induction l1 with
  | nil => exact h2
  | cons a l ih =>
    simp only [List.lookup, List.cons_append] at h1 ⊢
    split at h1
    · exact absurd h1 (by simp)
    · exact ih h1

lemma dictInsert_fresh (d : PyDict) (k : Path) (v : GwReturnObj)
    (h : d.lookup k = none) : dictInsert d k v = d ++ [(k, v)] := by
  unfold dictInsert
  rw [h]
  simp

/-- every path listed by the recursive directory listing extends the
directory by the separator -/
lemma list_file_paths_mem_extends (env : Env) (d : Path) (files : List Path)
    (hlist : list_file_paths env d true = .ok files) :
    ∀ p ∈ files, List.isPrefixOf (d ++ [env.sep]) p := by
  unfold list_file_paths at hlist
  split at hlist
  · simp only [if_true] at hlist
    cases hlist
    intro p hp
    exact (List.mem_filter.mp hp).2
  · cases hlist

/-- distinct files under a directory have distinct relative paths -/
lemma keys_nodup (sep : Char) (ind : Path) (files : List Path)
    (hpre : ∀ p ∈ files, List.isPrefixOf (ind ++ [sep]) p)
    (hnd : files.Nodup) :
    (files.map (fun p => p.drop (ind.length + 1))).Nodup := by
  refine List.Nodup.map_on ?_ hnd
  intro x hx y hy hxy
  obtain ⟨tx, hx'⟩ := List.isPrefixOf_iff_prefix.mp (hpre x hx)
  obtain ⟨ty, hy'⟩ := List.isPrefixOf_iff_prefix.mp (hpre y hy)
  have hlen : (ind ++ [sep]).length = ind.length + 1 := by simp
  rw [← hx', ← hy'] at hxy ⊢
  rw [← hlen, List.drop_left, List.drop_left] at hxy
  rw [hxy]

/-- the protect loop collects exactly one fresh entry per file, keyed by the
relative path, when every per-file call returns normally -/
lemma protect_go_spec (env : Env) (ind : Path) (od ord : Option Path)
    (pol : PolicyInput) (ru : Bool) (w : Path → GwReturnObj) :
    ∀ (files : List Path) (dict : PyDict) (tr : List Event),
    (∀ p ∈ files,
      (protect_archive env (.path p)
        (od.map (fun dd => dd ++ env.sep :: p.drop (ind.length + 1)))
        (ord.map (fun dd => dd ++ env.sep :: (p.drop (ind.length + 1) ++ ".xml".data)))
        pol ru).1 = .ok (w p)) →
    (∀ p ∈ files, dict.lookup (p.drop (ind.length + 1)) = none) →
    (files.map (fun p => p.drop (ind.length + 1))).Nodup →
    (protect_directory_go env ind od ord pol ru files dict tr).1
      = .ok (some (dict ++ files.map (fun p => (p.drop (ind.length + 1), w p)))) := by
  intro files
  induction files with
  | nil => intro dict tr _ _ _; simp [protect_directory_go]
  | cons p rest ih =>
    intro dict tr hok hfresh hnd
    rw [List.map_cons, List.nodup_cons] at hnd
    have hcall : protect_archive env (.path p)
        (od.map (fun dd => dd ++ env.sep :: p.drop (ind.length + 1)))
        (ord.map (fun dd => dd ++ env.sep :: (p.drop (ind.length + 1) ++ ".xml".data)))
        pol ru
        = (.ok (w p), (protect_archive env (.path p)
            (od.map (fun dd => dd ++ env.sep :: p.drop (ind.length + 1)))
            (ord.map (fun dd => dd ++ env.sep :: (p.drop (ind.length + 1) ++ ".xml".data)))
            pol ru).2) := by
      rw [← hok p (by simp)]
    unfold protect_directory_go
    simp only []
    rw [hcall]
    simp only []
    rw [dictInsert_fresh _ _ _ (hfresh p (by simp))]
    rw [ih (dict ++ [(p.drop (ind.length + 1), w p)]) _
      (fun q hq => hok q (by simp [hq]))
      ?_ hnd.2]
    · simp
    · intro q hq
      refine lookup_append_none _ _ _ (hfresh q (by simp [hq])) ?_
      have hne : ¬ (List.drop (ind.length + 1) q = List.drop (ind.length + 1) p) := by
        intro he
        exact hnd.1 (he ▸ List.mem_map_of_mem _ hq)
      have hb : (List.drop (ind.length + 1) q == List.drop (ind.length + 1) p) = false :=
        beq_eq_false_iff_ne.mpr hne
      simp [List.lookup, hb]

/-- the analyse loop returns python None once every per-file call returns
normally -/
lemma analyse_go_spec (env : Env) (ind odA : Path) (pol : PolicyInput) (ru : Bool) :
    ∀ (rels : List Path) (tr : List Event),
    (∀ rel ∈ rels, exceptOk (analyse_archive env (.path (ind ++ env.sep :: rel))
        (some (odA ++ env.sep :: rel)) (some ((odA ++ env.sep :: rel) ++ ".xml".data))
        pol ru).1 = true) →
    (analyse_directory_go env ind odA pol ru rels tr).1 = .ok none := by
  intro rels
  induction rels with
  | nil => intro tr _; simp [analyse_directory_go]
  | cons rel rest ih =>
    intro tr hok
    have h1 := hok rel (by simp)
    unfold analyse_directory_go
    simp only []
    cases hres : (analyse_archive env (.path (ind ++ env.sep :: rel))
        (some (odA ++ env.sep :: rel)) (some ((odA ++ env.sep :: rel) ++ ".xml".data))
        pol ru).1 with
    | error e => rw [hres] at h1; simp [exceptOk] at h1
    | ok v =>
      have hcall : analyse_archive env (.path (ind ++ env.sep :: rel))
          (some (odA ++ env.sep :: rel)) (some ((odA ++ env.sep :: rel) ++ ".xml".data))
          pol ru
          = (.ok v, (analyse_archive env (.path (ind ++ env.sep :: rel))
              (some (odA ++ env.sep :: rel)) (some ((odA ++ env.sep :: rel) ++ ".xml".data))
              pol ru).2) := by
        rw [← hres]
      rw [hcall]
      simp only []
      exact ih _ (fun q hq => hok q (by simp [hq]))

/-- C4 (amended): protect_directory returns a mapping with exactly one entry
per file under the input directory, keyed by the file's path relative to the
input directory in host-separator form (no forward-slash normalisation is
applied), each entry holding that file's result object; analyse_directory
runs the same kind of batch but returns python None, not a mapping. -/
theorem batch_mapping_per_file (env : Env) (ind : Path) (od ord : Option Path)
    (odA : Path) (pol : PolicyInput) (ru : Bool) (w : Path → GwReturnObj)
    (files : List Path)
    (hlist : list_file_paths env ind true = .ok files)
    (hnd : files.Nodup)
    (hok : ∀ p ∈ files,
      (protect_archive env (.path p)
        (od.map (fun dd => dd ++ env.sep :: p.drop (ind.length + 1)))
        (ord.map (fun dd => dd ++ env.sep :: (p.drop (ind.length + 1) ++ ".xml".data)))
        pol ru).1 = .ok (w p)) :
    ((protect_directory env ind od ord pol ru).1
      = .ok (some (files.map (fun p => (p.drop (ind.length + 1), w p)))))
  ∧ (∀ rels, list_file_paths env ind false = .ok rels →
      (∀ rel ∈ rels, exceptOk (analyse_archive env (.path (ind ++ env.sep :: rel))
          (some (odA ++ env.sep :: rel)) (some ((odA ++ env.sep :: rel) ++ ".xml".data))
          pol ru).1 = true) →
      (analyse_directory env ind odA pol ru).1 = .ok none) := by
  constructor
  · unfold protect_directory
    rw [hlist]
    simp only []
    rw [protect_go_spec env ind od ord pol ru w files [] [] hok
      (fun _ _ => rfl)
      (keys_nodup env.sep ind files (list_file_paths_mem_extends env ind files hlist) hnd)]
    simp
  · intro rels hrels hok2
    unfold analyse_directory
    rw [hrels]
    simp only []
    exact analyse_go_spec env ind odA pol ru rels [] hok2

/-- C4 counterexample: with one file under the input directory,
analyse_directory returns python None — there is no result mapping at all,
against the claim that both batch operations return a mapping with one entry
per file. -/
theorem analyse_directory_returns_no_mapping :
    list_file_paths env0 "/in".data false = .ok ["a.zip".data]
  ∧ (analyse_directory env0 "/in".data "/out".data .nonePolicy true).1 = .ok none :=
  ⟨rfl, rfl⟩

/-- witness for the amended C4 at the fixture environment -/
theorem batch_mapping_per_file_witness :
    list_file_paths env0 "/in".data true = .ok ["/in/a.zip".data]
  ∧ (protect_directory env0 "/in".data (some "/out".data) none .nonePolicy true).1
      = .ok (some [("a.zip".data, ⟨0, [1, 2, 3, 7], [9, 9]⟩)])
  ∧ (analyse_directory env0 "/in".data "/out".data .nonePolicy true).1 = .ok none := by
  have h := batch_mapping_per_file env0 "/in".data (some "/out".data) none
    "/out".data .nonePolicy true (fun _ => ⟨0, [1, 2, 3, 7], [9, 9]⟩)
    ["/in/a.zip".data] rfl (by simp)
    (by
      intro p hp
      simp only [List.mem_singleton] at hp
      subst hp
      rfl)
  refine ⟨rfl, ?_, ?_⟩
  · rw [h.1]
    rfl
  · exact h.2 ["a.zip".data] rfl (by
      intro rel hrel
      simp only [List.mem_singleton] at hrel
      subst hrel
      rfl)

/-! ## C8 and C10: working directory, caller-owned buffers -/

/-- C8: the working-directory override restores the prior working directory
on every exit path — whatever the body does to the ambient directory and
whether it returns or raises, the directory after the with-block is the one
recorded before it, and the body's outcome (value or exception) propagates
unchanged. -/
theorem cwd_restored_on_every_exit_path {α : Type} (isdir : Path → Bool) (sep : Char)
    (new_cwd : Path) (body : Path → Except PyErr α × Path) (cwd0 : Path) :
    (with_cwd_handler isdir sep new_cwd body cwd0).2 = cwd0
  ∧ (with_cwd_handler isdir sep new_cwd body cwd0).1
      = (body (if isdir new_cwd then new_cwd else dirname sep new_cwd)).1 :=
  ⟨rfl, rfl⟩

lemma set_append_length (h : BufHeap) (x w : Bytes) :
    (h ++ [x]).set h.length w = h ++ [w] := by
  induction h with
  | nil => rfl
  | cons a t ih => simp [ih]

/-- C10: marshalling a bytearray input passes the native call a freshly
allocated buffer, distinct from the caller's object but holding the same
bytes; any write the native side performs into that buffer leaves the
caller's bytearray unchanged. -/
theorem caller_bytearray_not_mutated (h : BufHeap) (caller : Nat)
    (hc : caller < h.length) :
    (marshal_bytearray_input h caller).2 ≠ caller
  ∧ heapGet (marshal_bytearray_input h caller).1 caller = heapGet h caller
  ∧ heapGet (marshal_bytearray_input h caller).1 (marshal_bytearray_input h caller).2
      = heapGet h caller
  ∧ (∀ wdata, heapGet (heapSet (marshal_bytearray_input h caller).1
      (marshal_bytearray_input h caller).2 wdata) caller = heapGet h caller) := by
  refine ⟨(Nat.ne_of_lt hc).symm, ?_, ?_, ?_⟩
  · unfold marshal_bytearray_input heapGet
    rw [List.getElem?_append_left hc]
  · unfold marshal_bytearray_input heapGet
    simp [List.getElem?_concat_length]
  · intro wdata
    unfold marshal_bytearray_input heapGet heapSet
    simp only [set_append_length]
    rw [List.getElem?_append_left hc]

/-- witness for C10 on a two-cell heap -/
theorem caller_bytearray_not_mutated_witness :
    0 < ([[1, 2, 3]] : BufHeap).length
  ∧ (marshal_bytearray_input [[1, 2, 3]] 0).2 ≠ 0
  ∧ heapGet (heapSet (marshal_bytearray_input [[1, 2, 3]] 0).1
      (marshal_bytearray_input [[1, 2, 3]] 0).2 [9]) 0 = [1, 2, 3] := by
  have h := caller_bytearray_not_mutated [[1, 2, 3]] 0 (by decide)
  exact ⟨by decide, h.1, h.2.2.2 [9]⟩

/-! ## C6: idempotence of the policy normaliser

The development below proves that re-normalising the output of
`normalize_xml_string` is the identity: the serialisation of a well-formed
tree parses back to exactly that tree, and re-indenting an indented tree
changes nothing. -/

lemma isDataChar_spec (c : Char) (h : isDataChar c = true) :
    ¬ (c = '<') ∧ ¬ (c = '&') := by
  unfold isDataChar at h
  simp at h
  exact h

lemma isWs_isDataChar (c : Char) (h : isWs c = true) : isDataChar c = true := by
  unfold isWs at h
  unfold isDataChar
  rcases h' : c.val.toNat with _
  rcases Bool.or_eq_true_iff.mp h with h1 | h1
  · rcases Bool.or_eq_true_iff.mp h1 with h2 | h2
    · rcases Bool.or_eq_true_iff.mp h2 with h3 | h3 <;>
        (simp at h3; subst h3; decide)
    · simp at h2; subst h2; decide
  · simp at h1; subst h1; decide

lemma takeWhile_tag (tag : Str) (c : Char) (r : Str)
    (htag : tag.all isTagChar = true) (hc : isTagChar c = false) :
    (tag ++ c :: r).takeWhile isTagChar = tag := by
  induction tag with
  | nil => simp [List.takeWhile, hc]
  | cons a t ih =>
    simp only [List.all_cons, Bool.and_eq_true] at htag
    simp [List.takeWhile, htag.1, ih htag.2]

lemma dropWhile_tag (tag : Str) (c : Char) (r : Str)
    (htag : tag.all isTagChar = true) (hc : isTagChar c = false) :
    (tag ++ c :: r).dropWhile isTagChar = c :: r := by
  induction tag with
  | nil => simp [List.dropWhile, hc]
  | cons a t ih =>
    simp only [List.all_cons, Bool.and_eq_true] at htag
    simp [List.dropWhile, htag.1, ih htag.2]

lemma scanText_prefix (t r : Str) (ht : t.all isDataChar = true) :
    scanText (t ++ '<' :: r) = some (t, '<' :: r) := by
  induction t with
  | nil => simp [scanText]
  | cons a s ih =>
    simp only [List.all_cons, Bool.and_eq_true] at ht
    obtain ⟨ha1, ha2⟩ := isDataChar_spec a ht.1
    simp [scanText, ha1, ha2, ih ht.2]

lemma scanText_good (cs : Str) :
    ∀ t r, scanText cs = some (t, r) → t.all isDataChar = true := by
  induction cs with
  | nil =>
    intro t r h
    simp [scanText] at h
    simp [h.1]
  | cons c cs' ih =>
    intro t r h
    unfold scanText at h
    by_cases h1 : c = '<'
    · simp [h1] at h
      simp [h.1]
    · by_cases h2 : c = '&'
      · simp [h1, h2] at h
      · simp only [h1, h2, if_false] at h
        rcases hrec : scanText cs' with _ | ⟨t', r'⟩
        · rw [hrec] at h; cases h
        · rw [hrec] at h
          simp at h
          rcases h with ⟨ht, hr⟩
          subst ht
          simp only [List.all_cons, Bool.and_eq_true]
          refine ⟨?_, ih t' r' hrec⟩
          unfold isDataChar
          simp [h1, h2]

lemma strOpt_getD (o : Option Str) (ho : goodOpt o = true) :
    strOpt (o.getD []) = o := by
  cases o with
  | none => rfl
  | some s =>
    unfold goodOpt at ho
    simp only [Bool.and_eq_true] at ho
    unfold strOpt
    simp only [Option.getD_some]
    rw [if_neg]
    simp only [Bool.not_eq_true'] at ho
    intro h
    rw [h] at ho
    exact absurd ho.1 (by simp)

lemma strOpt_goodOpt (t : Str) (ht : t.all isDataChar = true) :
    goodOpt (strOpt t) = true := by
  unfold strOpt
  by_cases h : t.isEmpty
  · simp [h, goodOpt]
  · simp only [h, if_false]
    unfold goodOpt
    simp [h, ht]

lemma setTail_tailOf (c : Xml) : c.setTail c.tailOf = c := by
  cases c; rfl

lemma setTail_setTail (c : Xml) (a b : Option Str) :
    (c.setTail a).setTail b = c.setTail b := by
  cases c; rfl

lemma tailOf_setTail (c : Xml) (a : Option Str) : (c.setTail a).tailOf = a := by
  cases c; rfl

lemma wf_setTail (c : Xml) (a : Option Str) (hc : wf c = true) (ha : goodOpt a = true) :
    wf (c.setTail a) = true := by
  cases c with
  | elem tag text ch tl =>
    simp only [Xml.setTail, wf, Bool.and_eq_true] at hc ⊢
    exact ⟨⟨⟨⟨hc.1.1.1.1, hc.1.1.1.2⟩, hc.1.1.2⟩, ha⟩, hc.2⟩

lemma indentSpace_all_ws : indentSpace.all isWs = true := by decide

lemma indentStr_all_ws (l : Nat) : (indentStr l).all isWs = true := by
  unfold indentStr
  simp only [List.all_cons, Bool.and_eq_true]
  refine ⟨by decide, ?_⟩
  induction l with
  | zero => decide
  | succ n ih =>
    simp only [List.replicate_succ, List.flatten_cons, List.all_append]
    rw [ih, indentSpace_all_ws]
    rfl

lemma all_ws_all_data (l : Str) (h : l.all isWs = true) : l.all isDataChar = true := by
  induction l with
  | nil => rfl
  | cons a t ih =>
    simp only [List.all_cons, Bool.and_eq_true] at h ⊢
    exact ⟨isWs_isDataChar a h.1, ih h.2⟩

lemma indentStr_good (l : Nat) : goodOpt (some (indentStr l)) = true := by
  unfold goodOpt
  simp only [Bool.and_eq_true]
  constructor
  · simp [indentStr]
  · exact all_ws_all_data _ (indentStr_all_ws l)

lemma setTextIfWs_idem (t : Option Str) (ind : Str) (hind : ind.all isWs = true) :
    setTextIfWs (setTextIfWs t ind) ind = setTextIfWs t ind := by
  unfold setTextIfWs
  by_cases h : wsOnly t = true
  · simp only [h, if_true]
    rw [if_pos]
    unfold wsOnly
    exact hind
  · simp [h]

lemma setTextIfWs_good (t : Option Str) (ind : Nat) (ht : goodOpt t = true) :
    goodOpt (setTextIfWs t (indentStr ind)) = true := by
  unfold setTextIfWs
  split
  · exact indentStr_good ind
  · exact ht

lemma printElem_cons (t : Xml) : ∃ s, printElem t = '<' :: s := by
  cases t with
  | elem tag text ch tl =>
    unfold printElem
    cases text <;> cases ch <;> exact ⟨_, rfl⟩

lemma takeWhile_all (p : Char → Bool) (l : Str) : (l.takeWhile p).all p = true := by
  induction l with
  | nil => rfl
  | cons a t ih =>
    unfold List.takeWhile
    by_cases h : p a
    · simp [h, ih]
    · simp [h]

lemma parseClose_result (tag cs : Str) (l : List Xml) (r : Str)
    (h : parseClose tag cs = some (l, r)) : l = [] := by
  unfold parseClose at h
  repeat' split at h
  all_goals cases h
  rfl

/-- everything the parser returns is well-formed, and a parsed element
carries no tail of its own -/
lemma parse_wf (fuel : Nat) :
    (∀ cs t r, parseElem fuel cs = some (t, r) → wf t = true ∧ t.tailOf = none)
  ∧ (∀ tag cs l r, parseItems fuel tag cs = some (l, r) → wfList l = true) := by
  induction fuel with
  | zero =>
    constructor
    · intro cs t r h
      simp [parseElem] at h
    · intro tag cs l r h
      unfold parseItems at h
      rw [parseClose_result tag cs l r h]
      rfl
  | succ fuel ih =>
    constructor
    · intro cs t r h
      unfold parseElem at h
      simp only [] at h
      repeat' split at h
      all_goals try cases h
      · constructor
        · simp_all [wf, wfList, goodOpt, takeWhile_all]
        · rfl
      · rename_i hscan x children hitems
        constructor
        · have hgood := strOpt_goodOpt _ (scanText_good _ _ _ hscan)
          have hch := ih.2 _ _ _ _ hitems
          simp_all [wf, wfList, goodOpt, takeWhile_all]
        · rfl
    · intro tag cs l r h
      unfold parseItems at h
      split at h
      · next r0 hclose =>
        cases h
        rw [parseClose_result _ _ _ _ hclose]
        rfl
      · repeat' split at h
        all_goals try cases h
        rename_i helem x1 t1 r1 hscan x2 children hitems
        have hc := ih.1 _ _ _ helem
        have hs := ih.2 _ _ _ _ hitems
        have hgood := strOpt_goodOpt _ (scanText_good _ _ _ hscan)
        unfold wfList
        rw [wf_setTail _ _ hc.1 hgood, hs]
        rfl

lemma wf_parts (tag : Str) (text : Option Str) (ch : List Xml) (tl : Option Str)
    (h : wf (Xml.elem tag text ch tl) = true) :
    tag.isEmpty = false ∧ tag.all isTagChar = true ∧ goodOpt text = true
      ∧ goodOpt tl = true ∧ wfList ch = true := by
  simp only [wf, Bool.and_eq_true, Bool.not_eq_true'] at h
  exact ⟨h.1.1.1.1, h.1.1.1.2, h.1.1.2, h.1.2, h.2⟩

lemma wfList_parts (c : Xml) (cs : List Xml) (h : wfList (c :: cs) = true) :
    wf c = true ∧ wfList cs = true := by
  simp only [wfList, Bool.and_eq_true] at h
  exact h

lemma wf_tailOf (c : Xml) (h : wf c = true) : goodOpt c.tailOf = true := by
  cases c with
  | elem tag text ch tl => exact (wf_parts _ _ _ _ h).2.2.2.1

lemma goodOpt_getD_all (o : Option Str) (h : goodOpt o = true) :
    (o.getD []).all isDataChar = true := by
  cases o with
  | none => rfl
  | some s =>
    unfold goodOpt at h
    rw [Bool.and_eq_true] at h
    exact h.2

lemma parseClose_close (tag rest : Str) :
    parseClose tag ('<' :: '/' :: (tag ++ '>' :: rest)) = some ([], rest) := by
  have hpre : List.isPrefixOf tag (tag ++ '>' :: rest) = true :=
    List.isPrefixOf_iff_prefix.mpr (List.prefix_append _ _)
  unfold parseClose
  simp [hpre, List.drop_left]

lemma parseClose_cons (tag : Str) (c0 : Char) (s : Str) (h0 : isTagChar c0 = true) :
    parseClose tag ('<' :: c0 :: s) = none := by
  have hne : ¬ (c0 = '/') := by
    intro h
    rw [h] at h0
    exact absurd h0 (by decide)
  unfold parseClose
  split
  · next cs1 heq =>
    injection heq with h1 h2
    injection h2 with h3 h4
    exact absurd h3 hne
  · rfl

lemma printElem_shape (c : Xml) (hc : wf c = true) :
    ∃ c0 s, printElem c = '<' :: c0 :: s ∧ isTagChar c0 = true := by
  cases c with
  | elem tag text ch tl =>
    obtain ⟨he, hall, -, -, -⟩ := wf_parts _ _ _ _ hc
    cases tag with
    | nil => simp at he
    | cons c0 tag' =>
      have h0 : isTagChar c0 = true := by
        simp only [List.all_cons, Bool.and_eq_true] at hall
        exact hall.1
      unfold printElem
      cases text <;> cases ch <;> exact ⟨c0, _, rfl, h0⟩

lemma parseClose_on_elem (tag : Str) (c : Xml) (r : Str) (hc : wf c = true) :
    parseClose tag (printElem c ++ r) = none := by
  obtain ⟨c0, s, hs, h0⟩ := printElem_shape c hc
  rw [hs]
  exact parseClose_cons tag c0 (s ++ r) h0

lemma printElem_long (tag : Str) (text : Option Str) (ch : List Xml) (tl : Option Str)
    (h : ¬ (text = none ∧ ch = [])) :
    printElem (Xml.elem tag text ch tl)
      = '<' :: (tag ++ '>' :: (text.getD [] ++ printItems ch
          ++ ('<' :: '/' :: (tag ++ ['>'])))) := by
  unfold printElem
  cases text with
  | none =>
    cases ch with
    | nil => exact absurd ⟨rfl, rfl⟩ h
    | cons a l => rfl
  | some s => cases ch <;> rfl

lemma items_head (ch : List Xml) (z : Str) :
    ∃ X, printItems ch ++ '<' :: z = '<' :: X := by
  cases ch with
  | nil => exact ⟨z, rfl⟩
  | cons c cs =>
    obtain ⟨s, hs⟩ := printElem_cons c
    refine ⟨s ++ ((c.tailOf).getD [] ++ (printItems cs ++ '<' :: z)), ?_⟩
    show printElem c ++ (c.tailOf).getD [] ++ printItems cs ++ '<' :: z = _
    rw [hs]
    simp

lemma scanText_before_lt (t s : Str) (ht : t.all isDataChar = true)
    (hs : ∃ X, s = '<' :: X) : scanText (t ++ s) = some (t, s) := by
  obtain ⟨X, hX⟩ := hs
  rw [hX]
  exact scanText_prefix t X ht

/-- the fuel bound is dominated by the length of the serialisation -/
lemma bound_le_length (n : Nat) :
    (∀ t : Xml, sizeOf t ≤ n → boundE t ≤ (printElem t).length)
  ∧ (∀ cs : List Xml, sizeOf cs ≤ n → boundI cs ≤ (printItems cs).length + 1) := by
  induction n using Nat.strong_induction_on with
  | _ n ih =>
    constructor
    · intro t hsz
      cases t with
      | elem tag text ch tl =>
        have hch : sizeOf ch < n := by
          have := Xml.elem.sizeOf_spec tag text ch tl
          omega
        have hI := (ih _ hch).2 ch le_rfl
        unfold boundE
        unfold printElem
        cases text with
        | none =>
          cases ch with
          | nil => simp [boundI]
          | cons a l =>
            simp only [List.length_cons, List.length_append]
            simp only [boundI] at hI ⊢
            omega
        | some s =>
          cases ch <;>
            (simp only [List.length_cons, List.length_append]
             simp only [boundI] at hI ⊢
             omega)
    · intro cs hsz
      cases cs with
      | nil => simp [boundI, printItems]
      | cons c rest =>
        have hc : sizeOf c < n := by
          have := List.cons.sizeOf_spec c rest
          omega
        have hr : sizeOf rest < n := by
          have := List.cons.sizeOf_spec c rest
          omega
        have hE := (ih _ hc).1 c le_rfl
        have hI := (ih _ hr).2 rest le_rfl
        have hpos : 1 ≤ (printElem c).length := by
          obtain ⟨s, hs⟩ := printElem_cons c
          rw [hs]
          simp
        unfold boundI printItems
        simp only [List.length_append]
        omega

/-- the serialisation of a well-formed tree parses back to exactly that tree
(with its own tail cleared — tails are printed by the parent), leaving the
rest of the input untouched -/
lemma round_trip (n : Nat) :
    (∀ t : Xml, sizeOf t ≤ n → wf t = true → ∀ fuel rest, boundE t ≤ fuel →
      parseElem fuel (printElem t ++ rest) = some (t.setTail none, rest))
  ∧ (∀ cs : List Xml, sizeOf cs ≤ n → wfList cs = true →
      ∀ (tag : Str) fuel rest, boundI cs ≤ fuel →
      parseItems fuel tag (printItems cs ++ '<' :: '/' :: (tag ++ '>' :: rest))
        = some (cs, rest)) := by
  induction n using Nat.strong_induction_on with
  | _ n ih =>
    constructor
    · intro t hsz hwf fuel rest hfuel
      cases t with
      | elem tag text ch tl =>
        obtain ⟨he, hall, htext, htail, hch⟩ := wf_parts _ _ _ _ hwf
        have hchsz : sizeOf ch < n := by
          have := Xml.elem.sizeOf_spec tag text ch tl
          omega
        cases fuel with
        | zero => simp [boundE] at hfuel
        | succ f =>
          have hbI : boundI ch ≤ f := by
            simp only [boundE] at hfuel
            omega
          by_cases hself : text = none ∧ ch = []
          · obtain ⟨h1, h2⟩ := hself
            subst h1
            subst h2
            have hshape : printElem (Xml.elem tag none [] tl) ++ rest
                = '<' :: (tag ++ '/' :: '>' :: rest) := by
              unfold printElem
              simp
            rw [hshape]
            unfold parseElem
            simp only [takeWhile_tag tag '/' ('>' :: rest) hall (by decide),
              dropWhile_tag tag '/' ('>' :: rest) hall (by decide), he]
            rfl
          · have hshape : printElem (Xml.elem tag text ch tl) ++ rest
                = '<' :: (tag ++ '>' :: (text.getD []
                    ++ (printItems ch ++ '<' :: ('/' :: (tag ++ '>' :: rest))))) := by
              rw [printElem_long tag text ch tl hself]
              simp
            rw [hshape]
            unfold parseElem
            simp only [takeWhile_tag tag '>'
                (text.getD [] ++ (printItems ch ++ '<' :: ('/' :: (tag ++ '>' :: rest))))
                hall (by decide),
              dropWhile_tag tag '>'
                (text.getD [] ++ (printItems ch ++ '<' :: ('/' :: (tag ++ '>' :: rest))))
                hall (by decide), he]
            rw [scanText_before_lt _ _ (goodOpt_getD_all text htext)
              (items_head ch ('/' :: (tag ++ '>' :: rest)))]
            simp only []
            rw [(ih _ (Nat.lt_of_lt_of_le hchsz (Nat.le_refl n))).2 ch le_rfl hch tag f rest hbI]
            rw [strOpt_getD text htext]
            rfl
    · intro cs hsz hwf tag fuel rest hfuel
      cases cs with
      | nil =>
        simp only [printItems, List.nil_append]
        cases fuel with
        | zero =>
          unfold parseItems
          exact parseClose_close tag rest
        | succ f =>
          unfold parseItems
          rw [parseClose_close tag rest]
      | cons c rest' =>
        obtain ⟨hc, hrest⟩ := wfList_parts c rest' hwf
        have hcsz : sizeOf c < n := by
          have := List.cons.sizeOf_spec c rest'
          omega
        have hrsz : sizeOf rest' < n := by
          have := List.cons.sizeOf_spec c rest'
          omega
        cases fuel with
        | zero => simp [boundI] at hfuel
        | succ f =>
          have hbE : boundE c ≤ f := by
            simp only [boundI] at hfuel
            omega
          have hbI : boundI rest' ≤ f := by
            simp only [boundI] at hfuel
            omega
          have hshape : printItems (c :: rest') ++ '<' :: '/' :: (tag ++ '>' :: rest)
              = printElem c ++ ((c.tailOf).getD []
                  ++ (printItems rest' ++ '<' :: '/' :: (tag ++ '>' :: rest))) := by
            simp only [printItems]
            simp
          rw [hshape]
          unfold parseItems
          rw [parseClose_on_elem tag c _ hc]
          simp only []
          rw [(ih _ hcsz).1 c le_rfl hc f _ hbE]
          simp only []
          rw [scanText_before_lt _ _ (goodOpt_getD_all _ (wf_tailOf c hc))
            (items_head rest' ('/' :: (tag ++ '>' :: rest)))]
          simp only []
          rw [(ih _ hrsz).2 rest' le_rfl hrest tag f rest hbI]
          simp only []
          rw [setTail_setTail, strOpt_getD _ (wf_tailOf c hc), setTail_tailOf]

lemma wf_intro (tag : Str) (text : Option Str) (ch : List Xml) (tl : Option Str)
    (h1 : tag.isEmpty = false) (h2 : tag.all isTagChar = true)
    (h3 : goodOpt text = true) (h4 : goodOpt tl = true) (h5 : wfList ch = true) :
    wf (Xml.elem tag text ch tl) = true := by
  simp [wf, h1, h2, h3, h4, h5]

lemma indentKids_isEmpty (l : Nat) (cs : List Xml) :
    (indentKids l cs).isEmpty = cs.isEmpty := by
  cases cs <;> simp [indentKids]

lemma indentElem_tailOf (l : Nat) (t : Xml) : (indentElem l t).tailOf = t.tailOf := by
  cases t with
  | elem tag text ch tl => cases ch <;> simp [indentElem, Xml.tailOf]

lemma setTailIfWs_idem (x : Xml) (m : Nat) :
    (x.setTailIfWs (indentStr m)).setTailIfWs (indentStr m)
      = x.setTailIfWs (indentStr m) := by
  cases x with
  | elem tag text ch tl =>
    simp only [Xml.setTailIfWs]
    rw [setTextIfWs_idem _ _ (indentStr_all_ws m)]

lemma indentElem_setTailIfWs (l : Nat) (x : Xml) (ind : Str) :
    indentElem l (x.setTailIfWs ind) = (indentElem l x).setTailIfWs ind := by
  cases x with
  | elem tag text ch tl => cases ch <;> rfl

lemma wf_setTailIfWs (x : Xml) (m : Nat) (hx : wf x = true) :
    wf (x.setTailIfWs (indentStr m)) = true := by
  cases x with
  | elem tag text ch tl =>
    obtain ⟨h1, h2, h3, h4, h5⟩ := wf_parts _ _ _ _ hx
    simp only [Xml.setTailIfWs]
    exact wf_intro _ _ _ _ h1 h2 h3 (setTextIfWs_good _ _ h4) h5

/-- re-indenting preserves well-formedness -/
lemma indent_wf (n : Nat) :
    (∀ t : Xml, sizeOf t ≤ n → wf t = true → ∀ l, wf (indentElem l t) = true)
  ∧ (∀ cs : List Xml, sizeOf cs ≤ n → wfList cs = true → ∀ l,
      wfList (indentKids l cs) = true) := by
  induction n using Nat.strong_induction_on with
  | _ n ih =>
    constructor
    · intro t hsz hwf l
      cases t with
      | elem tag text ch tl =>
        obtain ⟨h1, h2, h3, h4, h5⟩ := wf_parts _ _ _ _ hwf
        have hchsz : sizeOf ch < n := by
          have := Xml.elem.sizeOf_spec tag text ch tl
          omega
        cases ch with
        | nil => simpa [indentElem] using hwf
        | cons c cs =>
          simp only [indentElem]
          exact wf_intro _ _ _ _ h1 h2 (setTextIfWs_good _ _ h3) h4
            ((ih _ hchsz).2 _ le_rfl h5 l)
    · intro cs hsz hwf l
      cases cs with
      | nil =>
        simp only [indentKids]
        exact hwf
      | cons c rest =>
        obtain ⟨hc, hrest⟩ := wfList_parts c rest hwf
        have hcsz : sizeOf c < n := by
          have := List.cons.sizeOf_spec c rest
          omega
        have hrsz : sizeOf rest < n := by
          have := List.cons.sizeOf_spec c rest
          omega
        simp only [indentKids, wfList]
        rw [wf_setTailIfWs _ _ ((ih _ hcsz).1 c le_rfl hc (l + 1)),
          (ih _ hrsz).2 rest le_rfl hrest l]
        rfl

/-- re-indenting an already indented tree changes nothing -/
lemma indent_idem (n : Nat) :
    (∀ t : Xml, sizeOf t ≤ n → ∀ l, indentElem l (indentElem l t) = indentElem l t)
  ∧ (∀ cs : List Xml, sizeOf cs ≤ n → ∀ l,
      indentKids l (indentKids l cs) = indentKids l cs) := by
  induction n using Nat.strong_induction_on with
  | _ n ih =>
    constructor
    · intro t hsz l
      cases t with
      | elem tag text ch tl =>
        have hchsz : sizeOf ch < n := by
          have := Xml.elem.sizeOf_spec tag text ch tl
          omega
        cases ch with
        | nil => rfl
        | cons c cs =>
          simp only [indentElem, indentKids]
          rw [setTextIfWs_idem _ _ (indentStr_all_ws (l + 1))]
          have := (ih _ hchsz).2 (c :: cs) le_rfl l
          simp only [indentKids] at this
          rw [this]
    · intro cs hsz l
      cases cs with
      | nil => rfl
      | cons c rest =>
        have hcsz : sizeOf c < n := by
          have := List.cons.sizeOf_spec c rest
          omega
        have hrsz : sizeOf rest < n := by
          have := List.cons.sizeOf_spec c rest
          omega
        simp only [indentKids, indentKids_isEmpty]
        rw [indentElem_setTailIfWs, (ih _ hcsz).1 c le_rfl (l + 1)]
        rw [setTailIfWs_idem, (ih _ hrsz).2 rest le_rfl l]

lemma stripDecl_append (x : Str) : stripDecl (xmlDecl ++ x) = x := by
  unfold stripDecl
  rw [if_pos (List.isPrefixOf_iff_prefix.mpr (List.prefix_append _ _))]
  exact List.drop_left _ _

lemma dropWhile_printElem (t : Xml) (x : Str) :
    (printElem t ++ x).dropWhile isWs = printElem t ++ x := by
  obtain ⟨s, hs⟩ := printElem_cons t
  rw [hs]
  simp [List.dropWhile, isWs]

lemma parseDoc_wf (s : Str) (t : Xml) (h : parseDoc s = some t) :
    wf t = true ∧ t.tailOf = none := by
  unfold parseDoc at h
  simp only [] at h
  split at h
  · next t' rest hp =>
    split at h
    · cases h
      exact (parse_wf _).1 _ _ _ hp
    · cases h
  · cases h

/-- printing a well-formed tree that carries no tail of its own and parsing
the document back recovers exactly that tree -/
lemma parseDoc_tostring (t : Xml) (hwf : wf t = true) (htl : t.tailOf = none) :
    parseDoc (xml_tostring t) = some t := by
  unfold xml_tostring parseDoc
  simp only []
  rw [List.append_assoc, stripDecl_append, dropWhile_printElem t ['\n']]
  have hb : boundE t ≤ (printElem t ++ ['\n']).length := by
    have := (bound_le_length (sizeOf t)).1 t le_rfl
    simp only [List.length_append, List.length_cons, List.length_nil]
    omega
  rw [(round_trip (sizeOf t)).1 t le_rfl hwf _ ['\n'] hb]
  have ht : t.setTail none = t := by
    rw [← htl]
    exact setTail_tailOf t
  rw [ht]
  rfl

lemma normalize_some (s x : Str) (h : normalize_xml_string s = some x) :
    ∃ t, parseDoc s = some t ∧ x = xml_tostring (indentElem 0 t) := by
  unfold normalize_xml_string at h
  cases hp : parseDoc s with
  | none => rw [hp] at h; cases h
  | some t =>
    rw [hp] at h
    simp only [Option.map_some'] at h
    cases h
    exact ⟨t, rfl, rfl⟩

/-- the normalisation pipeline is idempotent: its output re-normalises to
itself -/
lemma normalize_idem (s x : Str) (h : normalize_xml_string s = some x) :
    normalize_xml_string x = some x := by
  obtain ⟨t, hp, hx⟩ := normalize_some s x h
  obtain ⟨hwf, htl⟩ := parseDoc_wf s t hp
  have hwf1 : wf (indentElem 0 t) = true := (indent_wf (sizeOf t)).1 t le_rfl hwf 0
  have htl1 : (indentElem 0 t).tailOf = none := by
    rw [indentElem_tailOf]
    exact htl
  unfold normalize_xml_string
  rw [hx, parseDoc_tostring _ hwf1 htl1]
  simp only [Option.map_some', Option.some.injEq]
  rw [(indent_idem (sizeOf t)).1 t le_rfl 0]

/-- C6: policy normalisation through validate_xml is idempotent — feeding the
canonical XML string it produced back in yields the very same string. -/
theorem validate_xml_idempotent (env : Env) (s x : Str)
    (h1 : validate_xml env (.str s) = .ok x)
    (h2 : env.fs.lookup x = none) :
    validate_xml env (.str x) = .ok x := by
  have hx : ∃ src, normalize_xml_string src = some x := by
    unfold validate_xml at h1
    simp only [] at h1
    split at h1
    · cases h1
    · next y hy =>
      cases h1
      exact ⟨_, hy⟩
  obtain ⟨src, hsrc⟩ := hx
  have hidem := normalize_idem src x hsrc
  rw [validate_xml_str_nonfile env x h2, hidem]

/-- witness for C6: a two-level policy document normalises to the canonical
indented form, which is a fixed point of the normaliser. -/
theorem validate_xml_idempotent_witness :
    validate_xml env0 (.str "<config><mode>process</mode></config>".data)
      = .ok (xmlDecl ++ "<config>\n    <mode>process</mode>\n</config>\n".data)
  ∧ env0.fs.lookup (xmlDecl ++ "<config>\n    <mode>process</mode>\n</config>\n".data)
      = none
  ∧ validate_xml env0
      (.str (xmlDecl ++ "<config>\n    <mode>process</mode>\n</config>\n".data))
      = .ok (xmlDecl ++ "<config>\n    <mode>process</mode>\n</config>\n".data) :=
  ⟨rfl, rfl, validate_xml_idempotent env0
    "<config><mode>process</mode></config>".data
    (xmlDecl ++ "<config>\n    <mode>process</mode>\n</config>\n".data) rfl rfl⟩

end Glasswall
